import Mathlib

/-!
# cpu_unstaker: planner, scanner and reconciliation engine

A shallow embedding of `unstaker.go`.  Account names are strings, `eos.Int64`
amounts are integers reduced with `wrapInt64` wherever the Go code performs
arithmetic on them, and what the program does not compute itself (chain API
replies, the clock, asset decoding, packing, key decoding and signing) is an
input of the definitions.
-/

namespace Unstaker

/-! ## Machine integers -/

/-- Two's complement reduction of an integer to the range of Go's `int64`. -/
def wrapInt64 (x : Int) : Int := (x + 2 ^ 63) % 2 ^ 64 - 2 ^ 63

/-- The values an `int64` can hold. -/
def inInt64 (x : Int) : Prop := -(2 ^ 63) ≤ x ∧ x < 2 ^ 63

instance (x : Int) : Decidable (inInt64 x) := by
  unfold inInt64
  infer_instance

/-! ## Data model -/

/-- The `eos.Symbol` of an asset: precision and ticker. -/
structure Symbol where
  precision : Nat
  symbol : String
deriving DecidableEq

/-- The `eos.Asset`: an `Int64` amount and its symbol. -/
structure Asset where
  amount : Int
  symbol : Symbol
deriving DecidableEq

/-- The `StakedAccount` of `unstaker.go`. -/
structure StakedAccount where
  account : String
  cpuWeight : Asset
  netWeight : Asset
deriving DecidableEq

/-- The `eos.PermissionLevel`. -/
structure PermissionLevel where
  actor : String
  permission : String
deriving DecidableEq

/-- The anonymous payload struct of `FullActionUnDelegateBW`, fields in
declaration order (`From`, `Receiver`, `Net`, `Cpu`). -/
structure UnDelegateData where
  from_ : String
  receiver : String
  net : Asset
  cpu : Asset
deriving DecidableEq

/-- The `eos.Action`; `actionData` is `none` until it is filled in. -/
structure Action where
  account : String
  name : String
  authorization : List PermissionLevel
  actionData : Option UnDelegateData
deriving DecidableEq

/-- The `[config]` table of `config.toml`.  The two floors are the values
returned by `CpuUnstakeToInt64` and `NetUnstakeToInt64`. -/
structure BotConfiguration where
  pkey : String
  account : String
  chunkSize : Int
  netUnstakeToInt64 : Int
  cpuUnstakeToInt64 : Int

/-! ## Action construction -/

/-- The `wrapAct` of `unstaker.go`. -/
def wrapAct (account : String) (name : String) (caller : String) : Action :=
  let authorization : List PermissionLevel := []
  let authorization := authorization ++ [{ actor := caller, permission := "cpustake" }]
  { account := account, name := name, authorization := authorization, actionData := none }

/-- The `FullActionUnDelegateBW` of `unstaker.go`. -/
def FullActionUnDelegateBW (from_ : String) (Receiver : String)
    (usntakeNetQuantity : Asset) (unstakeCpuQantity : Asset) : Action :=
  let act := wrapAct "eosio" "delegatebw" from_
  { act with
    actionData := some
      { from_ := from_
        receiver := Receiver
        net := usntakeNetQuantity
        cpu := unstakeCpuQantity } }

/-! ## Planner: per-account reduction and the action list -/

/-- Lines 246-257 of `main`: the pair `(cpuAsset, netAsset)` after the two
conditional subtractions. -/
def reducedAssets (config : BotConfiguration) (account : StakedAccount) : Asset × Asset :=
  let cpuAsset := account.cpuWeight
  let netAsset := account.netWeight
  let cpuAsset :=
    if cpuAsset.amount > config.cpuUnstakeToInt64 then
      { cpuAsset with amount := wrapInt64 (cpuAsset.amount - config.cpuUnstakeToInt64) }
    else
      { cpuAsset with amount := 0 }
  let netAsset :=
    if netAsset.amount > config.netUnstakeToInt64 then
      { netAsset with amount := wrapInt64 (netAsset.amount - config.netUnstakeToInt64) }
    else
      { netAsset with amount := 0 }
  (cpuAsset, netAsset)

/-- Lines 244-265 of `main`: the loop over a chunk that appends one action
per account unless both reduced amounts are zero. -/
def buildActions (config : BotConfiguration) :
    List StakedAccount → List Action → List Action
  | [], actions => actions
  | account :: rest, actions =>
    let cpuAsset := (reducedAssets config account).1
    let netAsset := (reducedAssets config account).2
    if cpuAsset.amount = 0 ∧ netAsset.amount = 0 then
      buildActions config rest actions
    else
      buildActions config rest
        (actions ++ [FullActionUnDelegateBW config.account account.account netAsset cpuAsset])

/-- The action `main` appends for an account that is not skipped (lines 261-264). -/
def plannedAction (config : BotConfiguration) (account : StakedAccount) : Action :=
  FullActionUnDelegateBW config.account account.account
    (reducedAssets config account).2 (reducedAssets config account).1

/-! ## Chunking -/

/-- How a loop of the program ends: with a value, with a Go run-time panic,
or still running when the step budget is used up. -/
inductive Outcome (α : Type) where
  | done (value : α)
  | panicked
  | running
deriving DecidableEq

/-- The Go slice expression `s[i:]`; `none` when the bound is out of range. -/
def sliceFrom {α : Type} (s : List α) (i : Int) : Option (List α) :=
  if 0 ≤ i ∧ i ≤ s.length then some (s.drop i.toNat) else none

/-- The Go slice expression `s[i:j]`; `none` when the bounds are out of range.
The upper bound is checked against the length: the only call site has
`j ≤ len(s)`, so the capacity check of Go can never be the one that fails. -/
def slice {α : Type} (s : List α) (i j : Int) : Option (List α) :=
  if 0 ≤ i ∧ i ≤ j ∧ j ≤ s.length then some ((s.drop i.toNat).take (j - i).toNat) else none

/-- Lines 221-227 of `main`: the `for i := 0; i < len(accounts); i += ChunkSize`
loop, started at index `i` with the chunks gathered so far.  The first
argument bounds the number of loop tests. -/
def chunkLoop (accounts : List StakedAccount) (chunkSize : Int) :
    Nat → Int → List (List StakedAccount) → Outcome (List (List StakedAccount))
  | 0, _, _ => Outcome.running
  | fuel + 1, i, chunks =>
    if i < accounts.length then
      if wrapInt64 (i + chunkSize) > accounts.length then
        match sliceFrom accounts i with
        | none => Outcome.panicked
        | some chunk =>
          chunkLoop accounts chunkSize fuel (wrapInt64 (i + chunkSize)) (chunks ++ [chunk])
      else
        match slice accounts i (wrapInt64 (i + chunkSize)) with
        | none => Outcome.panicked
        | some chunk =>
          chunkLoop accounts chunkSize fuel (wrapInt64 (i + chunkSize)) (chunks ++ [chunk])
    else
      Outcome.done chunks

/-- Lines 220-227 of `main`: `chunks` starts empty and `i` starts at zero. -/
def splitChunks (config : BotConfiguration) (accounts : List StakedAccount) (fuel : Nat) :
    Outcome (List (List StakedAccount)) :=
  chunkLoop accounts config.chunkSize fuel 0 []

/-- Where `main` goes once the chunks are known. -/
inductive Dispatch where
  | nothingToDo
  | process (chunks : List (List StakedAccount))
deriving DecidableEq

/-- Lines 230-235 of `main`: with no chunk the process prints
"No chunks to process." and exits with status 0, otherwise it walks the chunks. -/
def dispatchChunks (chunks : List (List StakedAccount)) : Dispatch :=
  if chunks.length = 0 then Dispatch.nothingToDo else Dispatch.process chunks

/-! ## Scanner: the rows of one page -/

/-- One row of the `delband` table as returned by `get_table_rows`. -/
structure Row where
  to_ : String
  cpu_weight : String
  net_weight : String
deriving DecidableEq

/-- The generic `contains` of `unstaker.go`, at the element type it is used with. -/
def contains (elems : List String) (v : String) : Bool :=
  match elems with
  | [] => false
  | s :: rest => if v = s then true else contains rest v

/-- Lines 187-210 of `main`: the loop over the rows of one page, appending to
`accounts`.  `newAssetFromString` stands for `eos.NewAssetFromString`; an
`Except.error` result is the `panic(err)` that ends the process. -/
def scanRows (newAssetFromString : String → Except String Asset) (config : BotConfiguration)
    (accountsLoaded : List String) :
    List Row → List StakedAccount → Except String (List StakedAccount)
  | [], accounts => Except.ok accounts
  | row :: rest, accounts =>
    let accname := row.to_
    if !contains accountsLoaded accname then
      scanRows newAssetFromString config accountsLoaded rest accounts
    else
      match newAssetFromString row.cpu_weight with
      | Except.error err => Except.error err
      | Except.ok cpuAss =>
        match newAssetFromString row.net_weight with
        | Except.error err => Except.error err
        | Except.ok netAss =>
          let acc : StakedAccount := { account := accname, cpuWeight := cpuAss, netWeight := netAss }
          if acc.cpuWeight.amount < config.cpuUnstakeToInt64
              ∧ acc.netWeight.amount < config.netUnstakeToInt64 then
            scanRows newAssetFromString config accountsLoaded rest accounts
          else
            scanRows newAssetFromString config accountsLoaded rest (accounts ++ [acc])

/-! ## Submission and reconciliation of one chunk -/

/-- The two fields of `eos.AccountResp` that `main` compares. -/
structure AccountResp where
  cpuWeight : Int
  netWeight : Int
deriving DecidableEq

/-- What `MakeAndSignTransaction` returns: the actions, the expiration instant
(milliseconds on the process clock) and the signatures, in key order. -/
structure PackedTransaction where
  actions : List Action
  expiration : Nat
  signatures : List String
deriving DecidableEq

/-- The eos-go calls of `MakeAndSignTransaction` that do not reach the chain:
whether `stx.Pack` succeeds on a transaction (given by its actions and
expiration), what `ecc.NewPrivateKey` decodes a key string to (`none` when it
returns an error, leaving a nil key behind), and the signature `Sign` returns
for a decoded key on the digest of a transaction. -/
structure EosLibrary where
  pack : List Action → Nat → Bool
  newPrivateKey : String → Option String
  sign : String → List Action → Nat → String

/-- The answer of the outside world to the call the engine is blocked on
(`FillFromChain`, `PushTransaction` or `GetAccount`): the time the call took in
milliseconds, whether `err == nil`, and the account returned by `GetAccount`. -/
structure Reply where
  elapsed : Nat
  ok : Bool
  account : AccountResp
deriving DecidableEq

/-- The program points of lines 243-294 at which the engine waits for a reply,
and the three ways it stops: the chunk is validated, `os.Exit(1)` (`fatal`), or
a Go run-time panic inside `MakeAndSignTransaction` (`panicked`). -/
inductive Label where
  | retry
  | push (packed : PackedTransaction)
  | retryValidate (firstValidation : Bool)
  | validated
  | fatal
  | panicked
deriving DecidableEq

/-- The state of the engine while it works on one chunk: the program point,
the process clock in milliseconds, and every transaction handed to
`PushTransaction` so far, newest first. -/
structure EngineState where
  label : Label
  clock : Nat
  submitted : List PackedTransaction
deriving DecidableEq

/-- Lines 108-114 of `MakeAndSignTransaction`: the loop over the keys.  The
error of `ecc.NewPrivateKey` is discarded, so a key that does not decode leaves
a nil key, and `Sign` on it is a nil dereference: the result is `none`. -/
def signLoop (lib : EosLibrary) (actions : List Action) (expiration : Nat) :
    List String → List String → Option (List String)
  | [], signatures => some signatures
  | key :: rest, signatures =>
    match lib.newPrivateKey key with
    | none => none
    | some pkey =>
      signLoop lib actions expiration rest (signatures ++ [lib.sign pkey actions expiration])

/-- The body of `MakeAndSignTransaction` after `FillFromChain` has succeeded at
instant `now` (lines 101-115): expiration 55 minutes ahead, `panic(err)` when
`stx.Pack` fails, then one signature per key.  `none` is a run-time panic. -/
def MakeAndSignTransaction (lib : EosLibrary) (actions : List Action) (keys : List String)
    (now : Nat) : Option PackedTransaction :=
  let expiration := now + 55 * 60 * 1000
  if lib.pack actions expiration then
    match signLoop lib actions expiration keys [] with
    | none => none
    | some signatures =>
      some { actions := actions, expiration := expiration, signatures := signatures }
  else
    none

/-- One transition of lines 243-294 of `main` for the chunk `chunk`, whose
first account had the weights `wasFirstAcc` before the first submission.
`time.Sleep d` advances the clock by `d` milliseconds. -/
def engineStep (lib : EosLibrary) (config : BotConfiguration) (chunk : List StakedAccount)
    (wasFirstAcc : AccountResp) (s : EngineState) (r : Reply) : EngineState :=
  match s.label with
  | Label.retry =>
    if r.ok then
      let actions := buildActions config chunk []
      let now := s.clock + r.elapsed
      match MakeAndSignTransaction lib actions [config.pkey] now with
      | none => { s with label := Label.panicked, clock := now }
      | some packed => { s with label := Label.push packed, clock := now }
    else
      { s with clock := s.clock + r.elapsed + 5 }
  | Label.push packed =>
    if r.ok then
      { label := Label.retryValidate true
        clock := s.clock + r.elapsed + 1500
        submitted := packed :: s.submitted }
    else
      { label := Label.fatal, clock := s.clock + r.elapsed, submitted := packed :: s.submitted }
  | Label.retryValidate firstValidation =>
    if r.ok then
      if r.account.cpuWeight = wasFirstAcc.cpuWeight
          ∧ r.account.netWeight = wasFirstAcc.netWeight then
        if firstValidation then
          { s with label := Label.retryValidate false, clock := s.clock + r.elapsed + 3500 }
        else
          { s with label := Label.retry, clock := s.clock + r.elapsed }
      else
        { s with label := Label.validated, clock := s.clock + r.elapsed }
    else
      { s with label := Label.fatal, clock := s.clock + r.elapsed }
  | Label.validated => s
  | Label.fatal => s
  | Label.panicked => s

/-- The engine state after a sequence of replies. -/
def engineRun (lib : EosLibrary) (config : BotConfiguration) (chunk : List StakedAccount)
    (wasFirstAcc : AccountResp) (s : EngineState) (replies : List Reply) : EngineState :=
  replies.foldl (engineStep lib config chunk wasFirstAcc) s

/-- The engine at label `retry` of a chunk, entered at instant `clock`. -/
def engineStart (clock : Nat) : EngineState :=
  { label := Label.retry, clock := clock, submitted := [] }

/-! ## Specification-side notions -/

/-- The record a row decodes to, when both of its asset strings decode. -/
def rowRecord (newAssetFromString : String → Except String Asset) (row : Row) :
    Option StakedAccount :=
  match newAssetFromString row.cpu_weight, newAssetFromString row.net_weight with
  | Except.ok cpuAss, Except.ok netAss =>
    some { account := row.to_, cpuWeight := cpuAss, netWeight := netAss }
  | _, _ => none

/-- The filter of the scanner in the words of the specification: the account is
on the allow-list and its two weights are not both strictly below their floors. -/
def keepRecord (config : BotConfiguration) (accountsLoaded : List String)
    (acc : StakedAccount) : Bool :=
  decide (acc.account ∈ accountsLoaded
    ∧ ¬ (acc.cpuWeight.amount < config.cpuUnstakeToInt64
        ∧ acc.netWeight.amount < config.netUnstakeToInt64))

/-- A row one of whose asset strings does not decode. -/
def malformed (newAssetFromString : String → Except String Asset) (row : Row) : Prop :=
  (∃ err, newAssetFromString row.cpu_weight = Except.error err)
    ∨ (∃ err, newAssetFromString row.net_weight = Except.error err)

/-- The timing invariant of the engine: every transaction already handed to
`PushTransaction` expires at least five seconds before any transaction built
from now on, and the submitted transactions are in that order. -/
def Timely (s : EngineState) : Prop :=
  (match s.label with
    | Label.retry => ∀ p ∈ s.submitted, p.expiration + 5000 ≤ s.clock + 55 * 60 * 1000
    | Label.push packed =>
      (∀ p ∈ s.submitted, p.expiration + 5000 ≤ packed.expiration)
        ∧ packed.expiration ≤ s.clock + 55 * 60 * 1000
    | Label.retryValidate true =>
      (∀ p ∈ s.submitted.tail, p.expiration + 5000 ≤ s.clock + 55 * 60 * 1000)
        ∧ ∀ p ∈ s.submitted, p.expiration + 1500 ≤ s.clock + 55 * 60 * 1000
    | Label.retryValidate false => ∀ p ∈ s.submitted, p.expiration + 5000 ≤ s.clock + 55 * 60 * 1000
    | Label.validated => True
    | Label.fatal => True
    | Label.panicked => True)
  ∧ s.submitted.Pairwise (fun newer older => older.expiration + 5000 ≤ newer.expiration)


/-- The engine states that can occur while a chunk is processed: those reached
from `retry` by some sequence of replies. -/
def Reachable (lib : EosLibrary) (config : BotConfiguration) (chunk : List StakedAccount)
    (wasFirstAcc : AccountResp) (s : EngineState) : Prop :=
  ∃ (clock : Nat) (replies : List Reply),
    s = engineRun lib config chunk wasFirstAcc (engineStart clock) replies

/-- The transaction `MakeAndSignTransaction` returns at instant `now` for one
key that decodes to `pkey`, when packing succeeds. -/
def signedTransaction (lib : EosLibrary) (actions : List Action) (pkey : String) (now : Nat) :
    PackedTransaction :=
  { actions := actions
    expiration := now + 55 * 60 * 1000
    signatures := [lib.sign pkey actions (now + 55 * 60 * 1000)] }

/-! ## Sample data -/

/-- The 8-decimal WAX symbol. -/
def wax : Symbol := { precision := 8, symbol := "WAX" }

/-- A well-formed WIF private key: the published eosio development key. -/
def sampleKey : String := "5KQwrPbwdL6PhXujxW37FSSQZ1JiwsST4cqQzDeyXtP79zkvFD3"

/-- A configuration with both floors at `floor`, the given chunk size and the
key `sampleKey`. -/
def sampleConfig (floor : Int) (chunkSize : Int) : BotConfiguration :=
  { pkey := sampleKey, account := "provider", chunkSize := chunkSize,
    netUnstakeToInt64 := floor, cpuUnstakeToInt64 := floor }

/-- A library in which every transaction packs, `sampleKey` is the one key that
decodes, and every signature is printed as `SIG_K1_sample`. -/
def sampleLibrary : EosLibrary :=
  { pack := fun _ _ => true
    newPrivateKey := fun key => if key = sampleKey then some key else none
    sign := fun _ _ _ => "SIG_K1_sample" }

/-- A staked account with the given name and amounts. -/
def sampleAccount (name : String) (cpu net : Int) : StakedAccount :=
  { account := name, cpuWeight := { amount := cpu, symbol := wax },
    netWeight := { amount := net, symbol := wax } }

/-- A decoder that accepts the two asset strings used in the sample pages. -/
def sampleDecode (s : String) : Except String Asset :=
  if s = "5.00000000 WAX" then Except.ok { amount := 500000000, symbol := wax }
  else if s = "0.50000000 WAX" then Except.ok { amount := 50000000, symbol := wax }
  else Except.error "invalid asset"

/-- A successful reply that took `elapsed` milliseconds and, for `GetAccount`,
reports the given weights. -/
def okReply (elapsed : Nat) (cpu net : Int) : Reply :=
  { elapsed := elapsed, ok := true, account := { cpuWeight := cpu, netWeight := net } }

/-- A failed reply that took `elapsed` milliseconds. -/
def failReply (elapsed : Nat) : Reply :=
  { elapsed := elapsed, ok := false, account := { cpuWeight := 0, netWeight := 0 } }

/-! ## Planner lemmas -/

theorem wrapInt64_of_inInt64 {x : Int} (h : inInt64 x) : wrapInt64 x = x := by
  unfold inInt64 at h
  unfold wrapInt64
  omega

theorem wrapInt64_sub_ne_zero {a f : Int} (ha : inInt64 a) (hf : inInt64 f) (h : a > f) :
    wrapInt64 (a - f) ≠ 0 := by
  unfold inInt64 at ha hf
  unfold wrapInt64
  omega

theorem buildActions_append (config : BotConfiguration) (chunk : List StakedAccount)
    (actions : List Action) :
    buildActions config chunk actions = actions ++ buildActions config chunk [] := by
  induction chunk generalizing actions with
  | nil => simp [buildActions]
  | cons account rest ih =>
    simp only [buildActions]
    split
    · exact ih actions
    · rw [ih (actions ++ _), ih ([] ++ _)]
      simp

/-- The reduced CPU amount is zero exactly when the CPU weight does not exceed its floor. -/
theorem reduced_cpu_eq_zero_iff (config : BotConfiguration) (account : StakedAccount)
    (hf : inInt64 config.cpuUnstakeToInt64) (ha : inInt64 account.cpuWeight.amount) :
    (reducedAssets config account).1.amount = 0
      ↔ account.cpuWeight.amount ≤ config.cpuUnstakeToInt64 := by
  unfold reducedAssets
  by_cases h : account.cpuWeight.amount > config.cpuUnstakeToInt64
  · have := wrapInt64_sub_ne_zero ha hf h
    simp [h, this]
  · simp [h]; omega

theorem reduced_net_eq_zero_iff (config : BotConfiguration) (account : StakedAccount)
    (hf : inInt64 config.netUnstakeToInt64) (ha : inInt64 account.netWeight.amount) :
    (reducedAssets config account).2.amount = 0
      ↔ account.netWeight.amount ≤ config.netUnstakeToInt64 := by
  unfold reducedAssets
  by_cases h : account.netWeight.amount > config.netUnstakeToInt64
  · have := wrapInt64_sub_ne_zero ha hf h
    simp [h, this]
  · simp [h]; omega

theorem buildActions_eq_filter (config : BotConfiguration) (chunk : List StakedAccount)
    (hcf : inInt64 config.cpuUnstakeToInt64) (hnf : inInt64 config.netUnstakeToInt64)
    (hchunk : ∀ a ∈ chunk, inInt64 a.cpuWeight.amount ∧ inInt64 a.netWeight.amount) :
    buildActions config chunk []
      = (chunk.filter (fun a => decide (a.cpuWeight.amount > config.cpuUnstakeToInt64
            ∨ a.netWeight.amount > config.netUnstakeToInt64))).map (plannedAction config) := by
  induction chunk with
  | nil => simp [buildActions]
  | cons account rest ih =>
    have hrest : ∀ a ∈ rest, inInt64 a.cpuWeight.amount ∧ inInt64 a.netWeight.amount :=
      fun a ha => hchunk a (List.mem_cons_of_mem _ ha)
    have hacc := hchunk account (List.mem_cons_self _ _)
    have hc := reduced_cpu_eq_zero_iff config account hcf hacc.1
    have hn := reduced_net_eq_zero_iff config account hnf hacc.2
    simp only [buildActions]
    split
    · rename_i hz
      rw [hc, hn] at hz
      have : ¬ (account.cpuWeight.amount > config.cpuUnstakeToInt64
            ∨ account.netWeight.amount > config.netUnstakeToInt64) := by omega
      rw [ih hrest, List.filter_cons_of_neg (by simpa using this)]
    · rename_i hz
      rw [hc, hn] at hz
      have : (account.cpuWeight.amount > config.cpuUnstakeToInt64
            ∨ account.netWeight.amount > config.netUnstakeToInt64) := by omega
      rw [buildActions_append, ih hrest, List.filter_cons_of_pos (by simpa using this)]
      simp [plannedAction]


/-! ## Chunking lemmas -/

theorem chunkLoop_exit (accounts : List StakedAccount) (chunkSize : Int) (fuel : Nat) (i : Int)
    (chunks : List (List StakedAccount)) (h : ¬ i < accounts.length) :
    chunkLoop accounts chunkSize (fuel + 1) i chunks = Outcome.done chunks := by
  simp [chunkLoop, h]

theorem mem_dropLast_cons {α : Type} {a c : α} {l : List α} (h : c ∈ (a :: l).dropLast) :
    c = a ∨ c ∈ l.dropLast := by
  cases l with
  | nil => simp at h
  | cons b t => simpa [List.dropLast] using h

theorem chunkLoop_spec (accounts : List StakedAccount) (cs : Nat) (hcs : 0 < cs)
    (hcs64 : (cs : Int) < 2 ^ 63) (hlen : accounts.length < 2 ^ 62) :
    ∀ (fuel n : Nat) (chunks : List (List StakedAccount)),
      (n = 0 ∨ cs ≤ n) → n ≤ accounts.length → accounts.length - n < fuel →
      ∃ new, chunkLoop accounts (cs : Int) fuel (n : Int) chunks = Outcome.done (chunks ++ new)
        ∧ new.flatten = accounts.drop n
        ∧ (∀ c ∈ new, c.length ≤ cs ∧ c ≠ [])
        ∧ (∀ c ∈ new.dropLast, c.length = cs)
        ∧ (n < accounts.length → new ≠ []) := by
  intro fuel
  induction fuel with
  | zero => intro n chunks _ _ h; omega
  | succ fuel ih =>
    intro n chunks hn hle hfuel
    by_cases hlt : n < accounts.length
    · have hsum : ((n : Int) + (cs : Int)) < 2 ^ 63 := by omega
      have hwrap : wrapInt64 ((n : Int) + (cs : Int)) = ((n + cs : Nat) : Int) := by
        rw [wrapInt64_of_inInt64 (by unfold inInt64; omega)]
        push_cast; rfl
      have hlt' : ((n : Int) < (accounts.length : Int)) := by exact_mod_cast hlt
      by_cases hover : n + cs > accounts.length
      · -- the last, possibly short, chunk
        have hover' : wrapInt64 ((n : Int) + (cs : Int)) > (accounts.length : Int) := by
          rw [hwrap]; exact_mod_cast hover
        have hslice : sliceFrom accounts (n : Int) = some (accounts.drop n) := by
          simp [sliceFrom, hle]
        refine ⟨[accounts.drop n], ?_, by simp, ?_, by simp, by simp⟩
        · rw [chunkLoop, if_pos hlt', if_pos hover', hslice]
          simp only
          rw [hwrap]
          cases fuel with
          | zero => omega
          | succ fuel =>
            rw [chunkLoop_exit]
            push_cast; omega
        · intro c hc
          simp only [List.mem_singleton] at hc
          subst hc
          constructor
          · simp; omega
          · intro hnil
            have := congrArg List.length hnil
            simp at this; omega
      · have hover' : ¬ wrapInt64 ((n : Int) + (cs : Int)) > (accounts.length : Int) := by
          rw [hwrap]; exact_mod_cast hover
        have hslice : slice accounts (n : Int) (wrapInt64 ((n : Int) + (cs : Int)))
            = some ((accounts.drop n).take cs) := by
          rw [hwrap]
          have : ((n + cs : Nat) : Int) ≤ (accounts.length : Int) := by exact_mod_cast (by omega)
          have h3 : (((n + cs : Nat) : Int) - (n : Int)).toNat = cs := by push_cast; omega
          simp only [slice, h3]
          rw [if_pos]
          · simp
          · refine ⟨by omega, by push_cast; omega, this⟩
        obtain ⟨new, hrun, hjoin, hall, hlast, hne⟩ :=
          ih (n + cs) (chunks ++ [(accounts.drop n).take cs]) (Or.inr (by omega)) (by omega)
            (by omega)
        refine ⟨(accounts.drop n).take cs :: new, ?_, ?_, ?_, ?_, by simp⟩
        · rw [chunkLoop, if_pos hlt', if_neg hover', hslice]
          simp only
          rw [hwrap, hrun]
          simp
        · rw [List.flatten_cons, hjoin, ← List.drop_drop, List.take_append_drop]
        · intro c hc
          rcases List.mem_cons.mp hc with rfl | hc
          · constructor
            · simp
            · intro hnil
              have := congrArg List.length hnil
              simp at this; omega
          · exact hall c hc
        · intro c hc
          rcases mem_dropLast_cons hc with rfl | hc
          · simp; omega
          · exact hlast c hc
    · have hn' : n = accounts.length := by omega
      refine ⟨[], ?_, ?_, by simp, by simp, by intro h; omega⟩
      · rw [chunkLoop_exit]
        · simp
        · exact_mod_cast hlt
      · simp [hn']

/-! ## Scanner lemmas -/

theorem contains_iff_mem (elems : List String) (v : String) :
    contains elems v = true ↔ v ∈ elems := by
  induction elems with
  | nil => simp [contains]
  | cons s rest ih =>
    unfold contains
    by_cases h : v = s
    · simp [h]
    · simp [h, ih]

theorem scanRows_wellFormed (newAssetFromString : String → Except String Asset)
    (config : BotConfiguration) (accountsLoaded : List String) (rows : List Row) :
    ∀ accounts : List StakedAccount,
      (∀ row ∈ rows, ¬ malformed newAssetFromString row) →
      scanRows newAssetFromString config accountsLoaded rows accounts
        = Except.ok (accounts ++ (rows.filterMap (rowRecord newAssetFromString)).filter
            (keepRecord config accountsLoaded)) := by
  induction rows with
  | nil => intro accounts _; simp [scanRows]
  | cons row rest ih =>
    intro accounts hwf
    have hrest : ∀ r ∈ rest, ¬ malformed newAssetFromString r :=
      fun r hr => hwf r (List.mem_cons_of_mem _ hr)
    have hrow := hwf row (List.mem_cons_self _ _)
    unfold malformed at hrow
    rcases hc : newAssetFromString row.cpu_weight with e | cpuAss
    · exact absurd (Or.inl ⟨e, hc⟩) hrow
    rcases hn : newAssetFromString row.net_weight with e | netAss
    · exact absurd (Or.inr ⟨e, hn⟩) hrow
    have hrec : rowRecord newAssetFromString row
        = some { account := row.to_, cpuWeight := cpuAss, netWeight := netAss } := by
      simp [rowRecord, hc, hn]
    rw [List.filterMap_cons_some hrec]
    unfold scanRows
    by_cases hmem : row.to_ ∈ accountsLoaded
    · have hcont : contains accountsLoaded row.to_ = true := (contains_iff_mem _ _).2 hmem
      simp only [hcont, hc, hn, Bool.not_true, Bool.false_eq_true, if_false]
      by_cases hlow : cpuAss.amount < config.cpuUnstakeToInt64
          ∧ netAss.amount < config.netUnstakeToInt64
      · rw [if_pos hlow, ih accounts hrest, List.filter_cons_of_neg]
        simp [keepRecord, hmem, hlow]
      · rw [if_neg hlow, ih _ hrest, List.filter_cons_of_pos]
        · simp
        · simp only [keepRecord, hmem, true_and, decide_eq_true_eq]
          exact hlow
    · have hcont : contains accountsLoaded row.to_ = false := by
        rw [← Bool.not_eq_true, contains_iff_mem]; exact hmem
      simp only [hcont, Bool.not_false, if_true]
      rw [ih accounts hrest, List.filter_cons_of_neg]
      simp [keepRecord, hmem]

theorem scanRows_error_iff (newAssetFromString : String → Except String Asset)
    (config : BotConfiguration) (accountsLoaded : List String) (rows : List Row) :
    ∀ accounts : List StakedAccount,
      (∃ err, scanRows newAssetFromString config accountsLoaded rows accounts
          = Except.error err)
        ↔ ∃ row ∈ rows, row.to_ ∈ accountsLoaded ∧ malformed newAssetFromString row := by
  induction rows with
  | nil => intro accounts; simp [scanRows]
  | cons row rest ih =>
    intro accounts
    unfold scanRows
    by_cases hmem : row.to_ ∈ accountsLoaded
    · have hcont : contains accountsLoaded row.to_ = true := (contains_iff_mem _ _).2 hmem
      simp only [hcont, Bool.not_true, Bool.false_eq_true, if_false]
      rcases hc : newAssetFromString row.cpu_weight with e | cpuAss
      · simp only [Except.error.injEq, exists_eq', true_iff]
        exact ⟨row, List.mem_cons_self _ _, hmem, Or.inl ⟨e, hc⟩⟩
      rcases hn : newAssetFromString row.net_weight with e | netAss
      · simp only [Except.error.injEq, exists_eq', true_iff]
        exact ⟨row, List.mem_cons_self _ _, hmem, Or.inr ⟨e, hn⟩⟩
      have hok : ¬ malformed newAssetFromString row := by
        unfold malformed
        simp [hc, hn]
      simp only
      split
      · rw [ih accounts]
        constructor
        · rintro ⟨r, hr, h⟩
          exact ⟨r, List.mem_cons_of_mem _ hr, h⟩
        · rintro ⟨r, hr, h⟩
          rcases List.mem_cons.mp hr with rfl | hr
          · exact absurd h.2 hok
          · exact ⟨r, hr, h⟩
      · rw [ih _]
        constructor
        · rintro ⟨r, hr, h⟩
          exact ⟨r, List.mem_cons_of_mem _ hr, h⟩
        · rintro ⟨r, hr, h⟩
          rcases List.mem_cons.mp hr with rfl | hr
          · exact absurd h.2 hok
          · exact ⟨r, hr, h⟩
    · have hcont : contains accountsLoaded row.to_ = false := by
        rw [← Bool.not_eq_true, contains_iff_mem]; exact hmem
      simp only [hcont, Bool.not_false, if_true]
      rw [ih accounts]
      constructor
      · rintro ⟨r, hr, h⟩
        exact ⟨r, List.mem_cons_of_mem _ hr, h⟩
      · rintro ⟨r, hr, h⟩
        rcases List.mem_cons.mp hr with rfl | hr
        · exact absurd h.1 hmem
        · exact ⟨r, hr, h⟩

/-! ## Engine lemmas -/

theorem engineRun_append (lib : EosLibrary) (config : BotConfiguration)
    (chunk : List StakedAccount) (was : AccountResp) (s : EngineState) (xs ys : List Reply) :
    engineRun lib config chunk was s (xs ++ ys)
      = engineRun lib config chunk was (engineRun lib config chunk was s xs) ys := by
  simp [engineRun, List.foldl_append]

theorem engineRun_cons (lib : EosLibrary) (config : BotConfiguration)
    (chunk : List StakedAccount) (was : AccountResp) (s : EngineState) (r : Reply)
    (rs : List Reply) :
    engineRun lib config chunk was s (r :: rs)
      = engineRun lib config chunk was (engineStep lib config chunk was s r) rs := by
  simp [engineRun]

/-- With a transaction that packs and one key that decodes,
`MakeAndSignTransaction` returns the signed transaction. -/
theorem makeAndSign_single (lib : EosLibrary) (actions : List Action) (key pkey : String)
    (now : Nat) (hpack : lib.pack actions (now + 55 * 60 * 1000) = true)
    (hkey : lib.newPrivateKey key = some pkey) :
    MakeAndSignTransaction lib actions [key] now
      = some (signedTransaction lib actions pkey now) := by
  simp only [MakeAndSignTransaction, hpack, if_true, signLoop, hkey, List.nil_append,
    signedTransaction]

/-- A key that does not decode makes `MakeAndSignTransaction` panic. -/
theorem makeAndSign_bad_key (lib : EosLibrary) (actions : List Action) (key : String)
    (now : Nat) (hkey : lib.newPrivateKey key = none) :
    MakeAndSignTransaction lib actions [key] now = none := by
  simp only [MakeAndSignTransaction, signLoop, hkey]
  split <;> rfl

/-- A transaction that does not pack makes `MakeAndSignTransaction` panic. -/
theorem makeAndSign_bad_pack (lib : EosLibrary) (actions : List Action) (keys : List String)
    (now : Nat) (hpack : lib.pack actions (now + 55 * 60 * 1000) = false) :
    MakeAndSignTransaction lib actions keys now = none := by
  simp only [MakeAndSignTransaction, hpack, Bool.false_eq_true, if_false]

theorem makeAndSign_expiration {lib : EosLibrary} {actions : List Action}
    {keys : List String} {now : Nat} {packed : PackedTransaction}
    (h : MakeAndSignTransaction lib actions keys now = some packed) :
    packed.expiration = now + 55 * 60 * 1000 := by
  simp only [MakeAndSignTransaction] at h
  split at h
  · split at h
    · cases h
    · cases h; rfl
  · cases h

theorem timely_start (clock : Nat) : Timely (engineStart clock) := by
  unfold Timely engineStart
  exact ⟨fun p hp => absurd hp (List.not_mem_nil p), List.Pairwise.nil⟩

theorem timely_step (lib : EosLibrary) (config : BotConfiguration)
    (chunk : List StakedAccount) (was : AccountResp) (s : EngineState) (r : Reply)
    (h : Timely s) : Timely (engineStep lib config chunk was s r) := by
  obtain ⟨label, clock, submitted⟩ := s
  obtain ⟨hl, hp⟩ := h
  cases label with
  | retry =>
    simp only [Timely] at hl
    by_cases hr : r.ok = true
    · cases hm : MakeAndSignTransaction lib (buildActions config chunk []) [config.pkey]
          (clock + r.elapsed) with
      | none =>
        simp only [engineStep, hr, if_true, hm, Timely]
        exact ⟨trivial, hp⟩
      | some packed =>
        have hexp := makeAndSign_expiration hm
        simp only [engineStep, hr, if_true, hm, Timely]
        refine ⟨⟨fun p hp' => ?_, by omega⟩, hp⟩
        have := hl p hp'
        omega
    · simp only [engineStep, hr, Timely]
      refine ⟨fun p hp' => ?_, hp⟩
      have := hl p hp'
      simp only [Bool.false_eq_true, if_false]
      omega
  | push packed =>
    simp only [Timely] at hl
    by_cases hr : r.ok = true
    · simp only [engineStep, hr, if_true, Timely, List.tail_cons]
      refine ⟨⟨fun p hp' => ?_, fun p hp' => ?_⟩, List.pairwise_cons.2 ⟨hl.1, hp⟩⟩
      · have := hl.1 p hp'; omega
      · rcases List.mem_cons.mp hp' with rfl | hp'
        · omega
        · have := hl.1 p hp'; omega
    · simp only [engineStep, hr, Timely]
      exact ⟨trivial, List.pairwise_cons.2 ⟨hl.1, hp⟩⟩
  | retryValidate firstValidation =>
    by_cases hr : r.ok = true
    · by_cases hsame : r.account.cpuWeight = was.cpuWeight ∧ r.account.netWeight = was.netWeight
      · cases firstValidation with
        | true =>
          simp only [Timely] at hl
          simp only [engineStep, hr, hsame, and_self, if_true, Timely]
          refine ⟨fun p hp' => ?_, hp⟩
          have := hl.2 p hp'; omega
        | false =>
          simp only [Timely] at hl
          simp only [engineStep, hr, hsame, and_self, if_true, Timely]
          refine ⟨fun p hp' => ?_, hp⟩
          have := hl p hp'
          simp only [Bool.false_eq_true, if_false]
          omega
      · simp only [engineStep, hr, hsame, if_true, if_false, Timely]
        exact ⟨trivial, hp⟩
    · simp only [engineStep, hr, Timely]
      exact ⟨trivial, hp⟩
  | validated => exact ⟨hl, hp⟩
  | fatal => exact ⟨hl, hp⟩
  | panicked => exact ⟨hl, hp⟩

theorem timely_run (lib : EosLibrary) (config : BotConfiguration)
    (chunk : List StakedAccount) (was : AccountResp) (replies : List Reply) :
    ∀ s : EngineState, Timely s → Timely (engineRun lib config chunk was s replies) := by
  induction replies with
  | nil => intro s h; exact h
  | cons r rs ih =>
    intro s h
    rw [engineRun_cons]
    exact ih _ (timely_step lib config chunk was s r h)

theorem timely_of_reachable (lib : EosLibrary) (config : BotConfiguration)
    (chunk : List StakedAccount) (was : AccountResp) (s : EngineState)
    (h : Reachable lib config chunk was s) : Timely s := by
  obtain ⟨clock, replies, rfl⟩ := h
  exact timely_run lib config chunk was replies _ (timely_start clock)

/-- Failed `FillFromChain` calls keep the engine at `retry` and submit nothing. -/
theorem engineRun_fills (lib : EosLibrary) (config : BotConfiguration)
    (chunk : List StakedAccount) (was : AccountResp) (fails : List Reply)
    (hfails : ∀ f ∈ fails, f.ok = false) :
    ∀ s : EngineState, s.label = Label.retry →
      (engineRun lib config chunk was s fails).label = Label.retry
        ∧ (engineRun lib config chunk was s fails).submitted = s.submitted
        ∧ s.clock ≤ (engineRun lib config chunk was s fails).clock := by
  induction fails with
  | nil => intro s h; exact ⟨h, rfl, le_refl _⟩
  | cons f fs ih =>
    intro s h
    have hf : f.ok = false := hfails f (List.mem_cons_self _ _)
    have hstep : engineStep lib config chunk was s f
        = { s with clock := s.clock + f.elapsed + 5 } := by
      simp [engineStep, h, hf]
    rw [engineRun_cons, hstep]
    obtain ⟨h1, h2, h3⟩ := ih (fun g hg => hfails g (List.mem_cons_of_mem _ hg))
      { s with clock := s.clock + f.elapsed + 5 } h
    refine ⟨h1, h2, ?_⟩
    simp only at h3
    omega

/-- From `retry`, failed fills followed by a successful one leave the engine
with whatever `MakeAndSignTransaction` does at that instant: holding the
transaction, not yet pushed, or stopped by its panic. -/
theorem engineRun_fill_ok (lib : EosLibrary) (config : BotConfiguration)
    (chunk : List StakedAccount) (was : AccountResp) (fails : List Reply) (r1 : Reply)
    (s : EngineState) (hs : s.label = Label.retry) (hfails : ∀ f ∈ fails, f.ok = false)
    (h1 : r1.ok = true) :
    ∃ now, s.clock ≤ now ∧ engineRun lib config chunk was s (fails ++ [r1])
      = { label :=
            match MakeAndSignTransaction lib (buildActions config chunk []) [config.pkey] now with
            | none => Label.panicked
            | some packed => Label.push packed
          clock := now
          submitted := s.submitted } := by
  obtain ⟨hl, hsub, hclk⟩ := engineRun_fills lib config chunk was fails hfails s hs
  refine ⟨(engineRun lib config chunk was s fails).clock + r1.elapsed, by omega, ?_⟩
  rw [engineRun_append]
  generalize engineRun lib config chunk was s fails = t at hl hsub hclk
  obtain ⟨label, clock, submitted⟩ := t
  simp only at hl hsub
  subst hl hsub
  simp only [engineRun, List.foldl_cons, List.foldl_nil, engineStep, h1, if_true]
  split <;> rename_i hm <;> simp only [hm]

/-- From `retry`, when the transaction packs and the key decodes, failed fills
followed by a successful one leave the engine holding the signed transaction,
not yet pushed. -/
theorem engineRun_build (lib : EosLibrary) (config : BotConfiguration)
    (chunk : List StakedAccount) (was : AccountResp) (fails : List Reply) (r1 : Reply)
    (s : EngineState) (pkey : String)
    (hpack : ∀ expiration, lib.pack (buildActions config chunk []) expiration = true)
    (hkey : lib.newPrivateKey config.pkey = some pkey)
    (hs : s.label = Label.retry) (hfails : ∀ f ∈ fails, f.ok = false) (h1 : r1.ok = true) :
    ∃ now, s.clock ≤ now ∧ engineRun lib config chunk was s (fails ++ [r1])
      = { label := Label.push (signedTransaction lib (buildActions config chunk []) pkey now)
          clock := now
          submitted := s.submitted } := by
  obtain ⟨now, hnow, hrun⟩ := engineRun_fill_ok lib config chunk was fails r1 s hs hfails h1
  refine ⟨now, hnow, ?_⟩
  rw [hrun, makeAndSign_single lib _ config.pkey pkey now (hpack _) hkey]

/-- From `retry`, failed fills, a successful fill and an accepted push leave the
engine waiting for its first validation reading, with the new transaction on
top of the submitted ones. -/
theorem engineRun_attempt (lib : EosLibrary) (config : BotConfiguration)
    (chunk : List StakedAccount) (was : AccountResp) (fails : List Reply) (r1 r2 : Reply)
    (s : EngineState) (pkey : String)
    (hpack : ∀ expiration, lib.pack (buildActions config chunk []) expiration = true)
    (hkey : lib.newPrivateKey config.pkey = some pkey)
    (hs : s.label = Label.retry) (hfails : ∀ f ∈ fails, f.ok = false) (h1 : r1.ok = true)
    (h2 : r2.ok = true) :
    ∃ now, s.clock ≤ now ∧ engineRun lib config chunk was s (fails ++ [r1, r2])
      = { label := Label.retryValidate true
          clock := now + r2.elapsed + 1500
          submitted :=
            signedTransaction lib (buildActions config chunk []) pkey now :: s.submitted } := by
  obtain ⟨now, hnow, hrun⟩ :=
    engineRun_build lib config chunk was fails r1 s pkey hpack hkey hs hfails h1
  refine ⟨now, hnow, ?_⟩
  have e : fails ++ [r1, r2] = (fails ++ [r1]) ++ [r2] := by simp
  rw [e, engineRun_append, hrun]
  simp [engineRun, engineStep, h2]

/-- Once validated, aborted or panicked the engine ignores every further reply. -/
theorem engineRun_terminal (lib : EosLibrary) (config : BotConfiguration)
    (chunk : List StakedAccount) (was : AccountResp) (more : List Reply) :
    ∀ s : EngineState,
      s.label = Label.validated ∨ s.label = Label.fatal ∨ s.label = Label.panicked →
      engineRun lib config chunk was s more = s := by
  induction more with
  | nil => intro s _; rfl
  | cons r rs ih =>
    intro s h
    have hstep : engineStep lib config chunk was s r = s := by
      rcases h with h | h | h <;> simp [engineStep, h]
    rw [engineRun_cons, hstep]
    exact ih s h

/-- With a key that does not decode, or a transaction that does not pack, the
engine stops with a panic at the first successful `FillFromChain`; nothing is
handed to `PushTransaction`, whatever replies follow. -/
theorem engineRun_panics (lib : EosLibrary) (config : BotConfiguration)
    (chunk : List StakedAccount) (was : AccountResp) (fails more : List Reply) (r1 : Reply)
    (s : EngineState)
    (hbad : lib.newPrivateKey config.pkey = none
      ∨ ∀ expiration, lib.pack (buildActions config chunk []) expiration = false)
    (hs : s.label = Label.retry) (hfails : ∀ f ∈ fails, f.ok = false) (h1 : r1.ok = true) :
    (engineRun lib config chunk was s (fails ++ [r1] ++ more)).label = Label.panicked
      ∧ (engineRun lib config chunk was s (fails ++ [r1] ++ more)).submitted = s.submitted := by
  obtain ⟨now, -, hrun⟩ := engineRun_fill_ok lib config chunk was fails r1 s hs hfails h1
  have hm : MakeAndSignTransaction lib (buildActions config chunk []) [config.pkey] now
      = none := by
    rcases hbad with h | h
    · exact makeAndSign_bad_key lib _ _ _ h
    · exact makeAndSign_bad_pack lib _ _ _ (h _)
  rw [hm] at hrun
  rw [engineRun_append, hrun, engineRun_terminal]
  · exact ⟨rfl, rfl⟩
  · right; right; rfl
/-! ## Further lemmas -/

/-- The reduced CPU amount under a non-negative floor. -/
theorem reduced_cpu_amount (config : BotConfiguration) (account : StakedAccount)
    (hcf : 0 ≤ config.cpuUnstakeToInt64) (hcr : inInt64 config.cpuUnstakeToInt64)
    (hc : inInt64 account.cpuWeight.amount) :
    (reducedAssets config account).1.amount
      = if account.cpuWeight.amount > config.cpuUnstakeToInt64
        then account.cpuWeight.amount - config.cpuUnstakeToInt64 else 0 := by
  unfold reducedAssets
  by_cases h : account.cpuWeight.amount > config.cpuUnstakeToInt64
  · have h1 : inInt64 (account.cpuWeight.amount - config.cpuUnstakeToInt64) := by
      unfold inInt64 at *; omega
    simp [h, wrapInt64_of_inInt64 h1]
  · simp [h]

/-- The reduced NET amount under a non-negative floor. -/
theorem reduced_net_amount (config : BotConfiguration) (account : StakedAccount)
    (hnf : 0 ≤ config.netUnstakeToInt64) (hnr : inInt64 config.netUnstakeToInt64)
    (hn : inInt64 account.netWeight.amount) :
    (reducedAssets config account).2.amount
      = if account.netWeight.amount > config.netUnstakeToInt64
        then account.netWeight.amount - config.netUnstakeToInt64 else 0 := by
  unfold reducedAssets
  by_cases h : account.netWeight.amount > config.netUnstakeToInt64
  · have h1 : inInt64 (account.netWeight.amount - config.netUnstakeToInt64) := by
      unfold inInt64 at *; omega
    simp [h, wrapInt64_of_inInt64 h1]
  · simp [h]

theorem rowRecord_accounts (newAssetFromString : String → Except String Asset)
    (rows : List Row) (hwf : ∀ row ∈ rows, ¬ malformed newAssetFromString row) :
    (rows.filterMap (rowRecord newAssetFromString)).map (fun acc => acc.account)
      = rows.map (fun row => row.to_) := by
  induction rows with
  | nil => rfl
  | cons row rest ih =>
    have hrow := hwf row (List.mem_cons_self _ _)
    unfold malformed at hrow
    rcases hc : newAssetFromString row.cpu_weight with e | cpuAss
    · exact absurd (Or.inl ⟨e, hc⟩) hrow
    rcases hn : newAssetFromString row.net_weight with e | netAss
    · exact absurd (Or.inr ⟨e, hn⟩) hrow
    have hrec : rowRecord newAssetFromString row
        = some { account := row.to_, cpuWeight := cpuAss, netWeight := netAss } := by
      simp [rowRecord, hc, hn]
    rw [List.filterMap_cons_some hrec, List.map_cons, List.map_cons,
      ih (fun r hr => hwf r (List.mem_cons_of_mem _ hr))]


/-! ## Claims -/

/-- C1: with floors `f ≥ 0` and `int64` amounts, each reduced amount is `a - f`
when `a > f` and `0` otherwise, for the CPU weight against the CPU floor and
for the NET weight against the NET floor; the result is never negative and the
subtraction stays inside `int64`. -/
theorem reducedAssets_amounts (config : BotConfiguration) (account : StakedAccount)
    (hcf : 0 ≤ config.cpuUnstakeToInt64) (hnf : 0 ≤ config.netUnstakeToInt64)
    (hcr : inInt64 config.cpuUnstakeToInt64) (hnr : inInt64 config.netUnstakeToInt64)
    (hc : inInt64 account.cpuWeight.amount) (hn : inInt64 account.netWeight.amount) :
    ((reducedAssets config account).1.amount
        = if account.cpuWeight.amount > config.cpuUnstakeToInt64
          then account.cpuWeight.amount - config.cpuUnstakeToInt64 else 0)
      ∧ ((reducedAssets config account).2.amount
        = if account.netWeight.amount > config.netUnstakeToInt64
          then account.netWeight.amount - config.netUnstakeToInt64 else 0)
      ∧ 0 ≤ (reducedAssets config account).1.amount
      ∧ 0 ≤ (reducedAssets config account).2.amount
      ∧ (account.cpuWeight.amount > config.cpuUnstakeToInt64 →
          inInt64 (account.cpuWeight.amount - config.cpuUnstakeToInt64))
      ∧ (account.netWeight.amount > config.netUnstakeToInt64 →
          inInt64 (account.netWeight.amount - config.netUnstakeToInt64)) := by
  have h1 : account.cpuWeight.amount > config.cpuUnstakeToInt64 →
      inInt64 (account.cpuWeight.amount - config.cpuUnstakeToInt64) := by
    unfold inInt64 at *; omega
  have h2 : account.netWeight.amount > config.netUnstakeToInt64 →
      inInt64 (account.netWeight.amount - config.netUnstakeToInt64) := by
    unfold inInt64 at *; omega
  have e1 := reduced_cpu_amount config account hcf hcr hc
  have e2 := reduced_net_amount config account hnf hnr hn
  refine ⟨e1, e2, ?_, ?_, h1, h2⟩
  · rw [e1]; split <;> omega
  · rw [e2]; split <;> omega

/-- Witness for C1: floors of 100 and an account holding 500 CPU and 50 NET. -/
theorem reducedAssets_amounts_witness :
    (reducedAssets (sampleConfig 100 2) (sampleAccount "alice" 500 50)).1.amount = 400
      ∧ (reducedAssets (sampleConfig 100 2) (sampleAccount "alice" 500 50)).2.amount = 0 := by
  have h := reducedAssets_amounts (sampleConfig 100 2) (sampleAccount "alice" 500 50)
    (by decide) (by decide) (by decide) (by decide) (by decide) (by decide)
  exact ⟨by rw [h.1]; decide, by rw [h.2.1]; decide⟩

/-- C6: with `int64` floors and amounts (the floors need not even be assumed
non-negative), the action list of a chunk is, in chunk order, one action for
each account with a weight strictly above its floor and nothing for the
others; a chunk whose accounts all have both weights at or below the floors
gives the empty list. -/
theorem buildActions_exact (config : BotConfiguration) (chunk : List StakedAccount)
    (hcr : inInt64 config.cpuUnstakeToInt64) (hnr : inInt64 config.netUnstakeToInt64)
    (hchunk : ∀ a ∈ chunk, inInt64 a.cpuWeight.amount ∧ inInt64 a.netWeight.amount) :
    buildActions config chunk []
        = (chunk.filter (fun a => decide (a.cpuWeight.amount > config.cpuUnstakeToInt64
            ∨ a.netWeight.amount > config.netUnstakeToInt64))).map (plannedAction config)
      ∧ ((∀ a ∈ chunk, a.cpuWeight.amount ≤ config.cpuUnstakeToInt64
            ∧ a.netWeight.amount ≤ config.netUnstakeToInt64) →
          buildActions config chunk [] = []) := by
  have h := buildActions_eq_filter config chunk hcr hnr hchunk
  refine ⟨h, fun hall => ?_⟩
  rw [h, List.map_eq_nil_iff, List.filter_eq_nil_iff]
  intro a ha
  have := hall a ha
  simp only [decide_eq_true_eq]
  omega

/-- Witness for C6: of two accounts against floors of 100, only the one above
a floor gets an action. -/
theorem buildActions_exact_witness :
    buildActions (sampleConfig 100 2)
        [sampleAccount "alice" 500 500, sampleAccount "bob" 50 50] []
      = [plannedAction (sampleConfig 100 2) (sampleAccount "alice" 500 500)] := by
  have h := (buildActions_exact (sampleConfig 100 2)
    [sampleAccount "alice" 500 500, sampleAccount "bob" 50 50]
    (by decide) (by decide) (by decide)).1
  rw [h]
  decide

/-- C7 (code at a concrete call): the action built for authority `provider` and
delegatee `alice` is addressed to `eosio`, has the single authorization
`provider@cpustake` and the payload `(provider, alice, net, cpu)`, but its
action name is `delegatebw`, not `undelegatebw`. -/
theorem fullAction_name_is_delegatebw :
    FullActionUnDelegateBW "provider" "alice" { amount := 400, symbol := wax }
        { amount := 300, symbol := wax }
      = { account := "eosio"
          name := "delegatebw"
          authorization := [{ actor := "provider", permission := "cpustake" }]
          actionData := some
            { from_ := "provider", receiver := "alice"
              net := { amount := 400, symbol := wax }
              cpu := { amount := 300, symbol := wax } } }
      ∧ (FullActionUnDelegateBW "provider" "alice" { amount := 400, symbol := wax }
          { amount := 300, symbol := wax }).name ≠ "undelegatebw" := by
  decide

/-- C10 (as stated, refuted): with both floors at 0 the account `alice` holding
5 CPU and 5 NET gets an action whose amounts are its current weights. -/
theorem zero_floor_emits_unchanged_amounts :
    buildActions (sampleConfig 0 2) [sampleAccount "alice" 5 5] []
      = [FullActionUnDelegateBW "provider" "alice"
          (sampleAccount "alice" 5 5).netWeight (sampleAccount "alice" 5 5).cpuWeight] := by
  decide

/-- C10 (amended): with strictly positive floors and `int64` amounts, every
emitted action is the planned action of an account of the chunk whose new
CPU amount or new NET amount differs from the current one; and an account is
left out exactly when both new amounts are zero. -/
theorem emitted_action_changes_amount (config : BotConfiguration) (chunk : List StakedAccount)
    (hcf : 0 < config.cpuUnstakeToInt64) (hnf : 0 < config.netUnstakeToInt64)
    (hcr : inInt64 config.cpuUnstakeToInt64) (hnr : inInt64 config.netUnstakeToInt64)
    (hchunk : ∀ a ∈ chunk, inInt64 a.cpuWeight.amount ∧ inInt64 a.netWeight.amount) :
    (∀ act ∈ buildActions config chunk [], ∃ a ∈ chunk, act = plannedAction config a
        ∧ ((reducedAssets config a).1.amount ≠ a.cpuWeight.amount
          ∨ (reducedAssets config a).2.amount ≠ a.netWeight.amount))
      ∧ (∀ a ∈ chunk, (plannedAction config a ∈ buildActions config chunk []
          ↔ ¬ ((reducedAssets config a).1.amount = 0
              ∧ (reducedAssets config a).2.amount = 0))) := by
  have h := buildActions_eq_filter config chunk hcr hnr hchunk
  constructor
  · intro act hact
    rw [h, List.mem_map] at hact
    obtain ⟨a, ha, rfl⟩ := hact
    rw [List.mem_filter] at ha
    obtain ⟨hmem, hgt⟩ := ha
    simp only [decide_eq_true_eq] at hgt
    obtain ⟨hc, hn⟩ := hchunk a hmem
    have e1 := reduced_cpu_amount config a (le_of_lt hcf) hcr hc
    have e2 := reduced_net_amount config a (le_of_lt hnf) hnr hn
    refine ⟨a, hmem, rfl, ?_⟩
    rw [e1, e2]
    split <;> split <;> omega
  · intro a hmem
    obtain ⟨hc, hn⟩ := hchunk a hmem
    rw [reduced_cpu_eq_zero_iff config a hcr hc, reduced_net_eq_zero_iff config a hnr hn, h,
      List.mem_map]
    constructor
    · rintro ⟨b, hb, hab⟩
      rw [List.mem_filter] at hb
      obtain ⟨hbc, hbn⟩ := hchunk b hb.1
      have hgt := hb.2
      simp only [decide_eq_true_eq] at hgt
      have hdata := congrArg Action.actionData hab
      simp only [plannedAction, FullActionUnDelegateBW, Option.some.injEq,
        UnDelegateData.mk.injEq] at hdata
      have hzc := reduced_cpu_eq_zero_iff config b hcr hbc
      have hzn := reduced_net_eq_zero_iff config b hnr hbn
      have hac := reduced_cpu_eq_zero_iff config a hcr hc
      have han := reduced_net_eq_zero_iff config a hnr hn
      rw [hdata.2.2.2] at hzc
      rw [hdata.2.2.1] at hzn
      omega
    · intro hne
      refine ⟨a, ?_, rfl⟩
      rw [List.mem_filter]
      refine ⟨hmem, ?_⟩
      simp only [decide_eq_true_eq]
      omega

/-- Witness for C10 (amended): with floors of 100, `alice` (500, 500) shares a
chunk with `bob` (50, 50); her action is emitted, as her new amounts are not
both zero. -/
theorem emitted_action_changes_amount_witness :
    plannedAction (sampleConfig 100 2) (sampleAccount "alice" 500 500)
        ∈ buildActions (sampleConfig 100 2)
            [sampleAccount "alice" 500 500, sampleAccount "bob" 50 50] []
      ↔ ¬ ((reducedAssets (sampleConfig 100 2) (sampleAccount "alice" 500 500)).1.amount = 0
          ∧ (reducedAssets (sampleConfig 100 2) (sampleAccount "alice" 500 500)).2.amount = 0) :=
  (emitted_action_changes_amount (sampleConfig 100 2)
    [sampleAccount "alice" 500 500, sampleAccount "bob" 50 50]
    (by decide) (by decide) (by decide) (by decide) (by decide)).2
    (sampleAccount "alice" 500 500) (List.mem_cons_self _ _)

/-- C2: for a non-empty account list and a positive chunk size, the chunking
loop ends (given one loop test more than there are accounts) and its chunks,
concatenated in order, are the account list; no chunk is empty or longer than
the chunk size, and every chunk but the last has exactly the chunk size.  The
list is shorter than `2 ^ 62`, as any Go slice of these records is. -/
theorem splitChunks_partition (config : BotConfiguration) (accounts : List StakedAccount)
    (fuel : Nat) (hne : accounts ≠ []) (hcs : 0 < config.chunkSize)
    (hcs64 : inInt64 config.chunkSize) (hlen : accounts.length < 2 ^ 62)
    (hfuel : accounts.length < fuel) :
    ∃ chunks, splitChunks config accounts fuel = Outcome.done chunks
      ∧ chunks.flatten = accounts
      ∧ chunks ≠ []
      ∧ (∀ c ∈ chunks, (c.length : Int) ≤ config.chunkSize ∧ c ≠ [])
      ∧ (∀ c ∈ chunks.dropLast, (c.length : Int) = config.chunkSize) := by
  obtain ⟨cs, hcsn⟩ : ∃ cs : Nat, config.chunkSize = (cs : Int) :=
    ⟨config.chunkSize.toNat, (Int.toNat_of_nonneg (le_of_lt hcs)).symm⟩
  have hcs' : 0 < cs := by omega
  have hcs64' : (cs : Int) < 2 ^ 63 := by rw [← hcsn]; exact hcs64.2
  have hpos : 0 < accounts.length := List.length_pos.2 hne
  obtain ⟨new, hrun, hflat, hall, hlast, hnonempty⟩ :=
    chunkLoop_spec accounts cs hcs' hcs64' hlen fuel 0 [] (Or.inl rfl) (Nat.zero_le _)
      (by omega)
  refine ⟨new, ?_, by simpa using hflat, hnonempty hpos, ?_, ?_⟩
  · unfold splitChunks
    rw [hcsn]
    simpa using hrun
  · intro c hc
    rw [hcsn]
    exact ⟨by exact_mod_cast (hall c hc).1, (hall c hc).2⟩
  · intro c hc
    rw [hcsn]
    exact_mod_cast hlast c hc

/-- Witness for C2: three accounts in chunks of two. -/
theorem splitChunks_partition_witness :
    ∃ chunks, splitChunks (sampleConfig 100 2)
        [sampleAccount "alice" 500 500, sampleAccount "bob" 50 50,
          sampleAccount "carol" 900 900] 4 = Outcome.done chunks
      ∧ chunks.flatten = [sampleAccount "alice" 500 500, sampleAccount "bob" 50 50,
          sampleAccount "carol" 900 900]
      ∧ chunks ≠ []
      ∧ (∀ c ∈ chunks, (c.length : Int) ≤ (sampleConfig 100 2).chunkSize ∧ c ≠ [])
      ∧ (∀ c ∈ chunks.dropLast, (c.length : Int) = (sampleConfig 100 2).chunkSize) :=
  splitChunks_partition (sampleConfig 100 2)
    [sampleAccount "alice" 500 500, sampleAccount "bob" 50 50, sampleAccount "carol" 900 900]
    4 (by decide) (by decide) (by decide) (by decide) (by decide)

/-- C3 (as stated, refuted): with chunk size `-1` and one account the loop does
not produce zero chunks; its first slice expression is out of range. -/
theorem negative_chunkSize_panics :
    splitChunks (sampleConfig 100 (-1)) [sampleAccount "alice" 500 500] 5
      = Outcome.panicked := by
  decide

/-- C3 (amended): with an empty account list, whatever the chunk size, the loop
ends at its first test with zero chunks and `main` takes the
"No chunks to process." exit. -/
theorem empty_accounts_no_chunks (config : BotConfiguration) (fuel : Nat) :
    splitChunks config [] (fuel + 1) = Outcome.done []
      ∧ dispatchChunks [] = Dispatch.nothingToDo := by
  constructor
  · simp [splitChunks, chunkLoop]
  · rfl

/-- With chunk size `0` and at least one account the loop never ends: it keeps
appending the empty slice `accounts[0:0]`. -/
theorem zero_chunkSize_runs_forever (account : StakedAccount) (rest : List StakedAccount)
    (fuel : Nat) :
    ∀ chunks, chunkLoop (account :: rest) 0 fuel 0 chunks = Outcome.running := by
  induction fuel with
  | zero => intro chunks; rfl
  | succ fuel ih =>
    intro chunks
    have hw : wrapInt64 (0 + 0) = 0 := by decide
    have hlen : (0 : Int) < ((account :: rest).length : Int) := by
      simp only [List.length_cons]; push_cast; omega
    have hnot : ¬ (0 : Int) > ((account :: rest).length : Int) := by omega
    rw [chunkLoop, if_pos hlen, hw, if_neg hnot]
    have hs : slice (account :: rest) 0 0 = some [] := by
      simp only [slice]
      rw [if_pos ⟨le_refl _, le_refl _, le_of_lt hlen⟩]
      simp
    rw [hs]
    exact ih _

/-- C4: on a page whose rows all decode, the scanner appends to the records
gathered so far exactly the rows, in row order, whose account is on the
allow-list and whose weights are not both strictly below their floors; every
appended record is on the allow-list and is not below both floors. -/
theorem scanRows_filter (newAssetFromString : String → Except String Asset)
    (config : BotConfiguration) (accountsLoaded : List String) (rows : List Row)
    (accounts : List StakedAccount)
    (hwf : ∀ row ∈ rows, ¬ malformed newAssetFromString row) :
    scanRows newAssetFromString config accountsLoaded rows accounts
        = Except.ok (accounts ++ (rows.filterMap (rowRecord newAssetFromString)).filter
            (keepRecord config accountsLoaded))
      ∧ (rows.filterMap (rowRecord newAssetFromString)).map (fun acc => acc.account)
          = rows.map (fun row => row.to_)
      ∧ (∀ acc ∈ (rows.filterMap (rowRecord newAssetFromString)).filter
            (keepRecord config accountsLoaded),
          acc.account ∈ accountsLoaded
            ∧ ¬ (acc.cpuWeight.amount < config.cpuUnstakeToInt64
                ∧ acc.netWeight.amount < config.netUnstakeToInt64)) := by
  refine ⟨scanRows_wellFormed newAssetFromString config accountsLoaded rows accounts hwf,
    rowRecord_accounts newAssetFromString rows hwf, ?_⟩
  intro acc hacc
  have := (List.mem_filter.1 hacc).2
  simp only [keepRecord, decide_eq_true_eq] at this
  exact this

/-- Witness for C4: `alice` is kept, `mallory` is not on the allow-list. -/
theorem scanRows_filter_witness :
    scanRows sampleDecode (sampleConfig 100 2) ["alice"]
        [⟨"alice", "5.00000000 WAX", "0.50000000 WAX"⟩,
          ⟨"mallory", "5.00000000 WAX", "5.00000000 WAX"⟩] []
      = Except.ok [⟨"alice", ⟨500000000, wax⟩, ⟨50000000, wax⟩⟩] := by
  have h := (scanRows_filter sampleDecode (sampleConfig 100 2) ["alice"]
    [⟨"alice", "5.00000000 WAX", "0.50000000 WAX"⟩,
      ⟨"mallory", "5.00000000 WAX", "5.00000000 WAX"⟩] []
    (by
      intro row hrow
      simp only [List.mem_cons, List.mem_singleton, List.not_mem_nil, or_false] at hrow
      rcases hrow with rfl | rfl <;> simp [malformed, sampleDecode])).1
  rw [h]
  rfl

/-- C8 (as stated, refuted): a row with undecodable asset strings whose account
is not on the allow-list does not abort the scan; the page yields no record. -/
theorem malformed_row_off_list_is_skipped :
    malformed sampleDecode ⟨"mallory", "garbage", "garbage"⟩
      ∧ scanRows sampleDecode (sampleConfig 100 2) ["alice"]
          [⟨"mallory", "garbage", "garbage"⟩] [] = Except.ok [] := by
  constructor
  · exact Or.inl ⟨"invalid asset", rfl⟩
  · rfl

/-- C8 (amended): the scan of a page aborts with the decoding error exactly when
some row whose account is on the allow-list has an undecodable `cpu_weight` or
`net_weight`; rows off the allow-list are skipped without being decoded, and a
page without such a row is processed to the end. -/
theorem scanRows_aborts_iff (newAssetFromString : String → Except String Asset)
    (config : BotConfiguration) (accountsLoaded : List String) (rows : List Row)
    (accounts : List StakedAccount) :
    ((∃ err, scanRows newAssetFromString config accountsLoaded rows accounts
          = Except.error err)
        ↔ ∃ row ∈ rows, row.to_ ∈ accountsLoaded ∧ malformed newAssetFromString row)
      ∧ ((∃ recs, scanRows newAssetFromString config accountsLoaded rows accounts
          = Except.ok recs)
        ↔ ¬ ∃ row ∈ rows, row.to_ ∈ accountsLoaded ∧ malformed newAssetFromString row) := by
  have h := scanRows_error_iff newAssetFromString config accountsLoaded rows accounts
  refine ⟨h, ?_⟩
  rw [← h]
  cases scanRows newAssetFromString config accountsLoaded rows accounts with
  | error e => simp
  | ok recs => simp

/-- C5: when the transaction packs and the configured key decodes, from any
reachable `retry` point of a chunk, after the transaction is built and pushed,
a first reading equal to the snapshot leads to exactly one further reading
with nothing pushed; a second equal reading sends the engine back to `retry`,
where it builds and pushes a new transaction for the same chunk that expires
at least five seconds (5000 ms) later than every earlier one, with the grace
reading available again; a reading that differs (first or second) ends the
chunk as validated, and nothing more is pushed whatever replies follow. -/
theorem reconciliation_grace_then_resubmit (lib : EosLibrary) (config : BotConfiguration)
    (chunk : List StakedAccount) (was : AccountResp) (s : EngineState) (pkey : String)
    (fails fails2 more : List Reply) (r1 r2 g1 g2 d r3 r4 : Reply)
    (hpack : ∀ expiration, lib.pack (buildActions config chunk []) expiration = true)
    (hkey : lib.newPrivateKey config.pkey = some pkey)
    (hreach : Reachable lib config chunk was s) (hs : s.label = Label.retry)
    (hfails : ∀ f ∈ fails, f.ok = false) (h1 : r1.ok = true) (h2 : r2.ok = true)
    (hg1 : g1.ok = true ∧ g1.account.cpuWeight = was.cpuWeight
      ∧ g1.account.netWeight = was.netWeight)
    (hg2 : g2.ok = true ∧ g2.account.cpuWeight = was.cpuWeight
      ∧ g2.account.netWeight = was.netWeight)
    (hd : d.ok = true ∧ ¬ (d.account.cpuWeight = was.cpuWeight
      ∧ d.account.netWeight = was.netWeight))
    (hfails2 : ∀ f ∈ fails2, f.ok = false) (h3 : r3.ok = true) (h4 : r4.ok = true) :
    ∃ packed packed2 : PackedTransaction,
      -- the attempt is pushed and its first validation is pending
      (engineRun lib config chunk was s (fails ++ [r1, r2])).label = Label.retryValidate true
      ∧ (engineRun lib config chunk was s (fails ++ [r1, r2])).submitted
          = packed :: s.submitted
      ∧ packed.actions = buildActions config chunk []
      ∧ (∀ p ∈ s.submitted, p.expiration + 5000 ≤ packed.expiration)
      -- first reading equal to the snapshot: one grace reading, no push
      ∧ (engineRun lib config chunk was s (fails ++ [r1, r2, g1])).label
          = Label.retryValidate false
      ∧ (engineRun lib config chunk was s (fails ++ [r1, r2, g1])).submitted
          = packed :: s.submitted
      -- second reading equal to the snapshot: rebuild and resubmit
      ∧ (engineRun lib config chunk was s (fails ++ [r1, r2, g1, g2])).label = Label.retry
      ∧ (engineRun lib config chunk was s (fails ++ [r1, r2, g1, g2])).submitted
          = packed :: s.submitted
      ∧ (engineRun lib config chunk was s
            (fails ++ [r1, r2, g1, g2] ++ fails2 ++ [r3, r4])).label
          = Label.retryValidate true
      ∧ (engineRun lib config chunk was s
            (fails ++ [r1, r2, g1, g2] ++ fails2 ++ [r3, r4])).submitted
          = packed2 :: packed :: s.submitted
      ∧ packed2.actions = buildActions config chunk []
      ∧ packed.expiration + 5000 ≤ packed2.expiration
      -- a differing first reading: validated, nothing more is pushed
      ∧ (engineRun lib config chunk was s (fails ++ [r1, r2, d] ++ more)).label
          = Label.validated
      ∧ (engineRun lib config chunk was s (fails ++ [r1, r2, d] ++ more)).submitted
          = packed :: s.submitted
      -- a differing second reading: validated, nothing more is pushed
      ∧ (engineRun lib config chunk was s (fails ++ [r1, r2, g1, d] ++ more)).label
          = Label.validated
      ∧ (engineRun lib config chunk was s (fails ++ [r1, r2, g1, d] ++ more)).submitted
          = packed :: s.submitted := by
  have htimely := (timely_of_reachable lib config chunk was s hreach).1
  simp only [Timely, hs] at htimely
  obtain ⟨now, hnow, hA⟩ :=
    engineRun_attempt lib config chunk was fails r1 r2 s pkey hpack hkey hs hfails h1 h2
  have e1 : fails ++ [r1, r2, g1] = (fails ++ [r1, r2]) ++ [g1] := by simp
  have e2 : fails ++ [r1, r2, g1, g2] = (fails ++ [r1, r2]) ++ [g1, g2] := by simp
  have e4 : fails ++ [r1, r2, d] ++ more = (fails ++ [r1, r2]) ++ (d :: more) := by simp
  have e5 : fails ++ [r1, r2, g1, d] ++ more = (fails ++ [r1, r2]) ++ (g1 :: d :: more) := by
    simp
  have hG1 : engineRun lib config chunk was s (fails ++ [r1, r2, g1])
      = { label := Label.retryValidate false
          clock := now + r2.elapsed + 1500 + g1.elapsed + 3500
          submitted :=
            signedTransaction lib (buildActions config chunk []) pkey now :: s.submitted } := by
    rw [e1, engineRun_append, hA]
    simp [engineRun, engineStep, hg1]
  have hG2 : engineRun lib config chunk was s (fails ++ [r1, r2, g1, g2])
      = { label := Label.retry
          clock := now + r2.elapsed + 1500 + g1.elapsed + 3500 + g2.elapsed
          submitted :=
            signedTransaction lib (buildActions config chunk []) pkey now :: s.submitted } := by
    rw [e2, engineRun_append, hA]
    simp [engineRun, engineStep, hg1, hg2]
  obtain ⟨now2, hnow2, hB⟩ := engineRun_attempt lib config chunk was fails2 r3 r4
    (engineRun lib config chunk was s (fails ++ [r1, r2, g1, g2])) pkey hpack hkey
    (by rw [hG2]) hfails2 h3 h4
  have hB' : engineRun lib config chunk was s
        (fails ++ [r1, r2, g1, g2] ++ fails2 ++ [r3, r4])
      = { label := Label.retryValidate true
          clock := now2 + r4.elapsed + 1500
          submitted :=
            signedTransaction lib (buildActions config chunk []) pkey now2
              :: signedTransaction lib (buildActions config chunk []) pkey now
              :: s.submitted } := by
    rw [List.append_assoc, engineRun_append, hB, hG2]
  rw [hG2] at hnow2
  simp only at hnow2
  have hD : engineRun lib config chunk was s (fails ++ [r1, r2, d] ++ more)
      = { label := Label.validated
          clock := now + r2.elapsed + 1500 + d.elapsed
          submitted :=
            signedTransaction lib (buildActions config chunk []) pkey now :: s.submitted } := by
    rw [e4, engineRun_append, hA, engineRun_cons, engineRun_terminal]
    · simp [engineStep, hd]
    · left; simp [engineStep, hd]
  have hD2 : engineRun lib config chunk was s (fails ++ [r1, r2, g1, d] ++ more)
      = { label := Label.validated
          clock := now + r2.elapsed + 1500 + g1.elapsed + 3500 + d.elapsed
          submitted :=
            signedTransaction lib (buildActions config chunk []) pkey now :: s.submitted } := by
    rw [e5, engineRun_append, hA, engineRun_cons, engineRun_cons, engineRun_terminal]
    · simp [engineStep, hd, hg1]
    · left; simp [engineStep, hd, hg1]
  refine ⟨signedTransaction lib (buildActions config chunk []) pkey now,
    signedTransaction lib (buildActions config chunk []) pkey now2, ?_⟩
  rw [hA, hG1, hG2, hB', hD, hD2]
  refine ⟨rfl, rfl, rfl, ?_, rfl, rfl, rfl, rfl, rfl, rfl, rfl, ?_, rfl, rfl, rfl, rfl⟩
  · intro p hp
    have := htimely p hp
    simp only [signedTransaction]
    omega
  · simp only [signedTransaction]
    omega

/-- Witness for C5: one failed fill, then build and push, two readings equal to
the snapshot, and the resubmission. -/
theorem reconciliation_grace_then_resubmit_witness :
    (engineRun sampleLibrary (sampleConfig 100 2) [sampleAccount "alice" 500 500] ⟨500, 500⟩
        (engineStart 0) ([failReply 3] ++ [okReply 10 0 0, okReply 10 0 0,
          okReply 20 500 500])).label = Label.retryValidate false
      ∧ (engineRun sampleLibrary (sampleConfig 100 2) [sampleAccount "alice" 500 500]
        ⟨500, 500⟩ (engineStart 0) ([failReply 3] ++ [okReply 10 0 0, okReply 10 0 0,
          okReply 20 500 500, okReply 20 500 500])).label = Label.retry := by
  obtain ⟨_, _, h⟩ := reconciliation_grace_then_resubmit sampleLibrary (sampleConfig 100 2)
    [sampleAccount "alice" 500 500] ⟨500, 500⟩ (engineStart 0) sampleKey
    [failReply 3] [] [] (okReply 10 0 0) (okReply 10 0 0) (okReply 20 500 500)
    (okReply 20 500 500) (okReply 20 100 100) (okReply 10 0 0) (okReply 10 0 0)
    (fun _ => rfl) (by decide)
    ⟨0, [], rfl⟩ rfl (by decide) rfl rfl (by decide) (by decide) (by decide) (by decide)
    rfl rfl
  exact ⟨h.2.2.2.2.1, h.2.2.2.2.2.2.1⟩

end Unstaker
